import Mathlib

/-!
Verification of the pythia web front-end (`src/main.go`).

The file embeds the program's pure core in Lean:

* Go string primitives used by the program: byte-wise lexicographic
  comparison (Go's `<` on strings; for valid UTF-8, byte order and
  code-point order agree, so a Go string is modelled as its list of
  code points), `strings.Join`, `strings.Split` and the `%s`-only
  fragment of `fmt.Sprintf` that `cmdLine` uses.
* `cmdLine`, `byPath`, `sortedPackages`, `scopeFiles` translated from
  the source.
* The control flow of `main` and the `GOMAXPROCS` logic of `init`,
  as functions over an explicit world record, producing the sequence
  of observable events (standard-error output, collaborator calls,
  listener opening, process exit).
* A transition system for the query coordinator's mutex discipline
  (the handler code is outside the embedded file and is modelled from
  the spec).
-/

namespace Pythia

/-! ## Go string primitives -/

/-- Byte-wise lexicographic "less than" on strings, as Go's `<` compares
`string` values, expressed on the code-point lists (equivalent to byte
order for valid UTF-8). -/
def charListLess : List Char → List Char → Bool
  | [], [] => false
  | [], _ :: _ => true
  | _ :: _, [] => false
  | a :: as, b :: bs => a < b || (a = b && charListLess as bs)

/-- Go `s < t` on strings. -/
def goStringLess (s t : String) : Bool :=
  charListLess s.data t.data

/-- Go `strings.Join(elems, sep)`. -/
def stringsJoin : List String → String → String
  | [], _ => ""
  | [e], _ => e
  | e :: rest, sep => e ++ sep ++ stringsJoin rest sep

/-- Splitting a code-point list around every occurrence of `sep`
(the single-character case of Go `strings.Split`). -/
def splitCharAux (sep : Char) : List Char → List (List Char)
  | [] => [[]]
  | c :: cs =>
    let rest := splitCharAux sep cs
    if c = sep then [] :: rest
    else
      match rest with
      | [] => [[c]]
      | h :: t => (c :: h) :: t

/-- Go `strings.Split(s, sep)` for a one-character separator; in
particular `strings.Split("", sep) = [""]`. -/
def stringsSplit (s : String) (sep : Char) : List String :=
  (splitCharAux sep s.data).map (fun cs => String.mk cs)

/-- The fragment of Go `fmt.Sprintf` exercised by this program: a format
string whose only verbs are `%s`, applied to a list of string
arguments. -/
def sprintfS : List Char → List String → String
  | [], _ => ""
  | '%' :: 's' :: rest, arg :: args => arg ++ sprintfS rest args
  | '%' :: 's' :: rest, [] => "%!s(MISSING)" ++ sprintfS rest []
  | c :: rest, args => String.singleton c ++ sprintfS rest args

/-! ## cmdLine (src/main.go:193-196) -/

/-- `cmdLine` returns what the command line would look like if the
oracle was invoked via command line with the given arguments:
`fmt.Sprintf("oracle -pos=%s -format=%s %s %s", pos, format, mode,
strings.Join(scope, " "))`. -/
def cmdLine (mode pos format : String) (scope : List String) : String :=
  sprintfS "oracle -pos=%s -format=%s %s %s".data
    [pos, format, mode, stringsJoin scope " "]

/-- Unfolding of the format string: `cmdLine` is plain concatenation. -/
theorem cmdLine_eq (mode pos format : String) (scope : List String) :
    cmdLine mode pos format scope =
      "oracle -pos=" ++ pos ++ " -format=" ++ format ++ " " ++ mode ++ " "
        ++ stringsJoin scope " " := by
  apply String.ext
  simp [cmdLine, sprintfS, String.singleton, String.data_append]

/-- C1: for every mode, position, format and scope list, `cmdLine`
returns exactly `"oracle -pos="` ++ position ++ `" -format="` ++ format
++ `" "` ++ mode ++ `" "` ++ the scope paths joined by single spaces, in
that fixed order; in particular
`cmdLine "callers" "foo.go:10:2" "json" ["example.com/pkg"]` is
`"oracle -pos=foo.go:10:2 -format=json callers example.com/pkg"`. -/
theorem cmdLine_renders_fixed_order (mode pos format : String) (scope : List String) :
    cmdLine mode pos format scope =
      "oracle -pos=" ++ pos ++ " -format=" ++ format ++ " " ++ mode ++ " "
        ++ stringsJoin scope " "
    ∧ cmdLine "callers" "foo.go:10:2" "json" ["example.com/pkg"] =
      "oracle -pos=foo.go:10:2 -format=json callers example.com/pkg" := by
  refine ⟨cmdLine_eq mode pos format scope, ?_⟩
  rw [cmdLine_eq]
  rfl

/-- C9: with an empty scope list the `%s` for the joined scope renders
as the empty string, so the rendered command line still ends in the
separating space that follows the mode token. -/
theorem cmdLine_empty_scope_trailing_space (mode pos format : String) :
    cmdLine mode pos format [] =
      ("oracle -pos=" ++ pos ++ " -format=" ++ format ++ " " ++ mode) ++ " "
    ∧ (cmdLine "describe" "f.go:1:1" "plain" []).data.getLast? = some ' ' := by
  constructor
  · rw [cmdLine_eq]
    simp [stringsJoin]
  · rw [cmdLine_eq]
    rfl

/-! ## Order facts about byte-wise string comparison -/

theorem charListLess_asymm (a b : List Char) (h : charListLess a b = true) :
    charListLess b a = false := by
  induction a generalizing b with
  | nil =>
    cases b with
    | nil => simp [charListLess] at h
    | cons y ys => simp [charListLess]
  | cons x xs ih =>
    cases b with
    | nil => simp [charListLess] at h
    | cons y ys =>
      simp only [charListLess, Bool.or_eq_true, Bool.and_eq_true,
        decide_eq_true_eq, Bool.or_eq_false_iff, Bool.and_eq_false_iff,
        decide_eq_false_iff_not] at h ⊢
      rcases h with hlt | ⟨heq, hrec⟩
      · exact ⟨not_lt_of_gt hlt, Or.inl fun hyx => absurd hlt (by simp [hyx])⟩
      · subst heq
        exact ⟨lt_irrefl x, Or.inr (ih ys hrec)⟩

theorem charListLess_antisymm (a b : List Char) (h1 : charListLess a b = false)
    (h2 : charListLess b a = false) : a = b := by
  induction a generalizing b with
  | nil =>
    cases b with
    | nil => rfl
    | cons y ys => simp [charListLess] at h1
  | cons x xs ih =>
    cases b with
    | nil => simp [charListLess] at h2
    | cons y ys =>
      simp only [charListLess, Bool.or_eq_false_iff, Bool.and_eq_false_iff,
        decide_eq_false_iff_not] at h1 h2
      obtain ⟨hxy, h1r⟩ := h1
      obtain ⟨hyx, h2r⟩ := h2
      have hxyeq : x = y := le_antisymm (not_lt.mp hyx) (not_lt.mp hxy)
      subst hxyeq
      rcases h1r with hne | h1r
      · exact absurd rfl hne
      rcases h2r with hne | h2r
      · exact absurd rfl hne
      exact congrArg (x :: ·) (ih ys h1r h2r)

theorem charListLess_le_trans (a b c : List Char) (h1 : charListLess a b = false)
    (h2 : charListLess b c = false) : charListLess a c = false := by
  induction a generalizing b c with
  | nil =>
    cases b with
    | nil => exact h2
    | cons y ys => simp [charListLess] at h1
  | cons x xs ih =>
    cases c with
    | nil => simp [charListLess]
    | cons z zs =>
      cases b with
      | nil => simp [charListLess] at h2
      | cons y ys =>
        simp only [charListLess, Bool.or_eq_false_iff, Bool.and_eq_false_iff,
          decide_eq_false_iff_not] at h1 h2 ⊢
        obtain ⟨hxy, h1r⟩ := h1
        obtain ⟨hyz, h2r⟩ := h2
        have hyx : y ≤ x := not_lt.mp hxy
        have hzy : z ≤ y := not_lt.mp hyz
        refine ⟨not_lt.mpr (le_trans hzy hyx), ?_⟩
        by_cases hxz : x = z
        · subst hxz
          have hxyeq : x = y := le_antisymm hzy hyx
          subst hxyeq
          have r1 : charListLess xs ys = false := by
            rcases h1r with hne | h1r
            · exact absurd rfl hne
            · exact h1r
          have r2 : charListLess ys zs = false := by
            rcases h2r with hne | h2r
            · exact absurd rfl hne
            · exact h2r
          exact Or.inr (ih ys zs r1 r2)
        · exact Or.inl hxz

theorem goStringLess_asymm (s t : String) (h : goStringLess s t = true) :
    goStringLess t s = false :=
  charListLess_asymm s.data t.data h

theorem goStringLess_antisymm (s t : String) (h1 : goStringLess s t = false)
    (h2 : goStringLess t s = false) : s = t :=
  String.ext (charListLess_antisymm s.data t.data h1 h2)

theorem goStringLess_le_trans (s t u : String) (h1 : goStringLess s t = false)
    (h2 : goStringLess t u = false) : goStringLess s u = false :=
  charListLess_le_trans s.data t.data u.data h1 h2

theorem goStringLess_le_total (s t : String) :
    goStringLess s t = false ∨ goStringLess t s = false := by
  cases h : goStringLess s t with
  | false => exact Or.inl rfl
  | true => exact Or.inr (goStringLess_asymm s t h)

/-! ## Program snapshot model

`importer.Program` enters this file through exactly two features the
code reads: the values of its `AllPackages` map (`*importer.PackageInfo`,
taken in some unspecified map-iteration order) and the file names
enumerated by `Fset.Iterate` (in the file set's registration order).
A `PackageInfo` is identified by its `Pkg.Path()` string; `pkgId`
stands for the identity of the underlying `*types.Package` pointer so
that distinct infos are distinct values even if paths coincided. -/

structure PackageInfo where
  pkgPath : String
  pkgId : Nat
deriving DecidableEq

structure Program where
  allPackages : List PackageInfo
  fsetFiles : List String
deriving DecidableEq

/-- `byPath.Less` (src/main.go:144): `p[i].Pkg.Path() < p[j].Pkg.Path()`. -/
def byPathLess (a b : PackageInfo) : Bool :=
  goStringLess a.pkgPath b.pkgPath

/-- The ordering contract of `sort.Sort(byPath(pkgs))`: in the sorted
slice no later element is `Less` than an earlier one, i.e. consecutive
elements satisfy `¬ Less b a`. -/
def byPathLe (a b : PackageInfo) : Prop :=
  byPathLess b a = false

instance : DecidableRel byPathLe :=
  fun a b => instDecidableEqBool (byPathLess b a) false

instance : IsTotal PackageInfo byPathLe where
  total a b := goStringLess_le_total b.pkgPath a.pkgPath

instance : IsTrans PackageInfo byPathLe where
  trans a b c h1 h2 := goStringLess_le_trans c.pkgPath b.pkgPath a.pkgPath h2 h1

instance : IsAntisymm PackageInfo (fun a b => byPathLess a b = true) where
  antisymm a b h1 h2 := by
    have := goStringLess_asymm a.pkgPath b.pkgPath h1
    rw [byPathLess] at h2
    exact absurd h2 (by simp [this])

/-- The ordering contract of `sort.Strings(files)`: ascending by Go
string comparison. -/
def fileLe (a b : String) : Prop :=
  goStringLess b a = false

instance : DecidableRel fileLe :=
  fun a b => instDecidableEqBool (goStringLess b a) false

instance : IsTotal String fileLe where
  total a b := goStringLess_le_total b a

instance : IsTrans String fileLe where
  trans a b c h1 h2 := goStringLess_le_trans c b a h2 h1

instance : IsAntisymm String fileLe where
  antisymm a b h1 h2 := goStringLess_antisymm a b h2 h1

/-- `sortedPackages` (src/main.go:148-155): collect the values of
`iprog.AllPackages` and sort them with `sort.Sort(byPath(pkgs))`;
`sort.Sort` is modelled as a sort correct for the `byPath.Less`
contract. -/
def sortedPackages (iprog : Program) : List PackageInfo :=
  List.insertionSort byPathLe iprog.allPackages

/-- `scopeFiles` (src/main.go:159-167): collect `f.Name()` for every
file of `iprog.Fset` and sort with `sort.Strings`. -/
def scopeFiles (iprog : Program) : List String :=
  List.insertionSort fileLe iprog.fsetFiles

/-- A `byPathLe`-sorted package list with pairwise-distinct paths is
strictly ascending by path. -/
theorem sorted_nodup_paths_strict (l : List PackageInfo)
    (hs : List.Sorted byPathLe l)
    (hn : (l.map PackageInfo.pkgPath).Nodup) :
    List.Pairwise (fun a b => byPathLess a b = true) l := by
  have hne : l.Pairwise (fun a b => a.pkgPath ≠ b.pkgPath) :=
    List.pairwise_map.mp hn
  refine (hs.and hne).imp ?_
  rintro a b ⟨hle, hab⟩
  cases h : byPathLess a b with
  | true => rfl
  | false =>
    exact absurd (goStringLess_antisymm a.pkgPath b.pkgPath h hle) hab

/-- C3: for a snapshot whose packages carry pairwise-distinct import
paths (the `AllPackages` map holds one entry per package), the derived
package index is sorted strictly ascending by byte-wise path
comparison, contains no duplicate paths, and does not depend on the
iteration order of the `AllPackages` map: any two iteration orders of
the same package set yield the same index. -/
theorem sortedPackages_strictly_sorted_deterministic (p q : Program)
    (h1 : (p.allPackages.map PackageInfo.pkgPath).Nodup)
    (h2 : p.allPackages.Perm q.allPackages) :
    List.Pairwise (fun a b => byPathLess a b = true) (sortedPackages p)
    ∧ ((sortedPackages p).map PackageInfo.pkgPath).Nodup
    ∧ sortedPackages p = sortedPackages q := by
  have hpermp : (sortedPackages p).Perm p.allPackages :=
    List.perm_insertionSort byPathLe p.allPackages
  have hpermq : (sortedPackages q).Perm q.allPackages :=
    List.perm_insertionSort byPathLe q.allPackages
  have hnodp : ((sortedPackages p).map PackageInfo.pkgPath).Nodup :=
    ((hpermp.map PackageInfo.pkgPath).symm).nodup h1
  have hnodq : ((sortedPackages q).map PackageInfo.pkgPath).Nodup := by
    refine ((hpermq.map PackageInfo.pkgPath).symm).nodup ?_
    exact (h2.map PackageInfo.pkgPath).nodup h1
  have hsp : List.Pairwise (fun a b => byPathLess a b = true) (sortedPackages p) :=
    sorted_nodup_paths_strict _ (List.sorted_insertionSort byPathLe p.allPackages) hnodp
  have hsq : List.Pairwise (fun a b => byPathLess a b = true) (sortedPackages q) :=
    sorted_nodup_paths_strict _ (List.sorted_insertionSort byPathLe q.allPackages) hnodq
  refine ⟨hsp, hnodp, ?_⟩
  exact List.eq_of_perm_of_sorted ((hpermp.trans h2).trans hpermq.symm) hsp hsq

/-- Witness for C3 at a concrete two-package snapshot presented in two
iteration orders. -/
theorem sortedPackages_strictly_sorted_deterministic_witness :
    List.Pairwise (fun a b => byPathLess a b = true)
      (sortedPackages ⟨[⟨"b", 0⟩, ⟨"a", 1⟩], []⟩)
    ∧ ((sortedPackages ⟨[⟨"b", 0⟩, ⟨"a", 1⟩], []⟩).map PackageInfo.pkgPath).Nodup
    ∧ sortedPackages ⟨[⟨"b", 0⟩, ⟨"a", 1⟩], []⟩
        = sortedPackages ⟨[⟨"a", 1⟩, ⟨"b", 0⟩], []⟩ :=
  sortedPackages_strictly_sorted_deterministic
    ⟨[⟨"b", 0⟩, ⟨"a", 1⟩], []⟩ ⟨[⟨"a", 1⟩, ⟨"b", 0⟩], []⟩
    (by decide) (List.Perm.swap (⟨"a", 1⟩ : PackageInfo) ⟨"b", 0⟩ [])

/-- C10: the package index is a permutation of the snapshot's package
set: same length and the same multiplicity for every package value, so
derivation drops, adds and duplicates nothing. -/
theorem sortedPackages_perm_allPackages (p : Program) :
    (sortedPackages p).Perm p.allPackages
    ∧ (sortedPackages p).length = p.allPackages.length
    ∧ ∀ x, (sortedPackages p).count x = p.allPackages.count x := by
  have hperm : (sortedPackages p).Perm p.allPackages :=
    List.perm_insertionSort byPathLe p.allPackages
  exact ⟨hperm, hperm.length_eq, fun x => hperm.count_eq x⟩

/-- C4: the file index is ascending by byte-wise string comparison,
contains exactly the snapshot's file names, is empty for an empty
snapshot, and does not depend on the enumeration order of the file
set. -/
theorem scopeFiles_sorted_total_deterministic (p q : Program) :
    List.Sorted fileLe (scopeFiles p)
    ∧ (scopeFiles p).Perm p.fsetFiles
    ∧ (p.fsetFiles = [] → scopeFiles p = [])
    ∧ (p.fsetFiles.Perm q.fsetFiles → scopeFiles p = scopeFiles q) := by
  have hperm : (scopeFiles p).Perm p.fsetFiles :=
    List.perm_insertionSort fileLe p.fsetFiles
  refine ⟨List.sorted_insertionSort fileLe p.fsetFiles, hperm, ?_, ?_⟩
  · intro h
    exact (h ▸ hperm).eq_nil
  · intro h
    exact List.eq_of_perm_of_sorted
      ((hperm.trans h).trans (List.perm_insertionSort fileLe q.fsetFiles).symm)
      (List.sorted_insertionSort fileLe p.fsetFiles)
      (List.sorted_insertionSort fileLe q.fsetFiles)

/-- Witness for C4: the empty snapshot yields an empty index, and two
enumeration orders of the same two files yield the same index. -/
theorem scopeFiles_sorted_total_deterministic_witness :
    scopeFiles ⟨[], []⟩ = []
    ∧ scopeFiles ⟨[], ["b", "a"]⟩ = scopeFiles ⟨[], ["a", "b"]⟩ :=
  ⟨(scopeFiles_sorted_total_deterministic ⟨[], []⟩ ⟨[], []⟩).2.2.1 rfl,
   (scopeFiles_sorted_total_deterministic ⟨[], ["b", "a"]⟩ ⟨[], ["a", "b"]⟩).2.2.2
     (List.Perm.swap "a" "b" [])⟩

/-! ## main (src/main.go:76-129) -/

/-- Observable effects of `main`, in program order. A trace ends at the
first `exited` event because `os.Exit` does not return. -/
inductive Event where
  | stderrOut (s : String)
  | helpPrinted
  | fromArgsCalled
  | loadCalled
  | oracleNewCalled
  | listenCalled
  | listenerOpened
  | serving
  | exited (code : Nat)
deriving DecidableEq

/-- Outcomes of the external collaborators consulted by `main`: flag
parsing (`some isHelp` if `flag.CommandLine.Parse` failed, `isHelp`
meaning the failure was `flag.ErrHelp`), the positional arguments, and
either an error message or success for `conf.FromArgs`, `conf.Load`,
`oracle.New` and `net.Listen`. -/
structure MainWorld where
  parseFailure : Option Bool
  cmdArgs : List String
  fromArgsErr : Option String
  loadErr : Option String
  oracleErr : Option String
  listenErr : Option String
deriving DecidableEq

/-- `useHelp` (src/main.go:49). -/
def useHelp : String := "Run 'pythia -help' for more information.\n"

/-- `exitError` (src/main.go:186-189): `fmt.Fprintln(os.Stderr, err)`
followed by `os.Exit(1)` (`Fprintln` appends a newline). -/
def exitError (err : String) : List Event :=
  [Event.stderrOut (err ++ "\n"), Event.exited 1]

/-- `main` (src/main.go:76-129) as the trace of observable events it
produces, given the collaborator outcomes in `w`. After a successful
`net.Listen` the process serves indefinitely (browser launch and
`srv.Serve` are beyond the trace's `serving` marker). -/
def main (w : MainWorld) : List Event :=
  match w.parseFailure with
  | some isHelp =>
    (if isHelp then [Event.helpPrinted] else []) ++ [Event.exited 2]
  | none =>
    if w.cmdArgs.length = 0 then
      [Event.stderrOut ("Error: no package arguments.\n" ++ useHelp),
       Event.exited 2]
    else
      Event.fromArgsCalled ::
        match w.fromArgsErr with
        | some e => exitError e
        | none =>
          Event.loadCalled ::
            match w.loadErr with
            | some e => exitError e
            | none =>
              Event.oracleNewCalled ::
                match w.oracleErr with
                | some e => exitError e
                | none =>
                  Event.listenCalled ::
                    match w.listenErr with
                    | some e => exitError e
                    | none => [Event.listenerOpened, Event.serving]

/-- C5: with flag parsing successful and zero package arguments, `main`
writes the configuration error to standard error and exits with code 2;
the trace contains no loading work (`conf.FromArgs`, `conf.Load`) and no
listener activity. -/
theorem main_no_args_exits_2 (w : MainWorld) (hp : w.parseFailure = none)
    (ha : w.cmdArgs = []) :
    main w = [Event.stderrOut ("Error: no package arguments.\n" ++ useHelp),
              Event.exited 2]
    ∧ Event.fromArgsCalled ∉ main w
    ∧ Event.loadCalled ∉ main w
    ∧ Event.listenCalled ∉ main w
    ∧ Event.listenerOpened ∉ main w := by
  have hm : main w = [Event.stderrOut ("Error: no package arguments.\n" ++ useHelp),
      Event.exited 2] := by
    simp [main, hp, ha]
  refine ⟨hm, ?_, ?_, ?_, ?_⟩ <;> simp [hm]

/-- Witness for C5 at a concrete world with no package arguments. -/
theorem main_no_args_exits_2_witness :
    main ⟨none, [], none, none, none, none⟩
      = [Event.stderrOut ("Error: no package arguments.\n" ++ useHelp),
         Event.exited 2]
    ∧ Event.fromArgsCalled ∉ main ⟨none, [], none, none, none, none⟩
    ∧ Event.loadCalled ∉ main ⟨none, [], none, none, none, none⟩
    ∧ Event.listenCalled ∉ main ⟨none, [], none, none, none, none⟩
    ∧ Event.listenerOpened ∉ main ⟨none, [], none, none, none, none⟩ :=
  main_no_args_exits_2 ⟨none, [], none, none, none, none⟩ rfl rfl

/-- The first failing startup step among `conf.FromArgs`, `conf.Load`
and `oracle.New`, in the order `main` consults them. -/
def firstStartupErr (w : MainWorld) : Option String :=
  match w.fromArgsErr with
  | some e => some e
  | none =>
    match w.loadErr with
    | some e => some e
    | none => w.oracleErr

/-- C6: if package resolution (`conf.FromArgs`), loading/type-checking
(`conf.Load`) or oracle construction (`oracle.New`) fails, `main`
prints that failure message to standard error and exits with code 1,
and the trace never reaches `net.Listen`: no listener is opened and
serving never starts. -/
theorem main_startup_failure_exits_1 (w : MainWorld) (hp : w.parseFailure = none)
    (ha : w.cmdArgs ≠ []) (e : String) (hf : firstStartupErr w = some e) :
    Event.stderrOut (e ++ "\n") ∈ main w
    ∧ Event.exited 1 ∈ main w
    ∧ Event.listenCalled ∉ main w
    ∧ Event.listenerOpened ∉ main w
    ∧ Event.serving ∉ main w := by
  cases hfa : w.fromArgsErr with
  | some e1 =>
    rw [firstStartupErr, hfa] at hf
    cases hf
    refine ⟨?_, ?_, ?_, ?_, ?_⟩ <;>
      simp [main, hp, hfa, exitError, List.length_eq_zero, ha]
  | none =>
    cases hlo : w.loadErr with
    | some e2 =>
      rw [firstStartupErr, hfa, hlo] at hf
      cases hf
      refine ⟨?_, ?_, ?_, ?_, ?_⟩ <;>
        simp [main, hp, hfa, hlo, exitError, List.length_eq_zero, ha]
    | none =>
      cases hor : w.oracleErr with
      | some e3 =>
        rw [firstStartupErr, hfa, hlo, hor] at hf
        cases hf
        refine ⟨?_, ?_, ?_, ?_, ?_⟩ <;>
          simp [main, hp, hfa, hlo, hor, exitError, List.length_eq_zero, ha]
      | none =>
        rw [firstStartupErr, hfa, hlo, hor] at hf
        cases hf

/-- Witness for C6 at a concrete world whose `conf.Load` fails. -/
theorem main_startup_failure_exits_1_witness :
    Event.stderrOut ("boom" ++ "\n") ∈ main ⟨none, ["fmt"], none, some "boom", none, none⟩
    ∧ Event.exited 1 ∈ main ⟨none, ["fmt"], none, some "boom", none, none⟩
    ∧ Event.listenCalled ∉ main ⟨none, ["fmt"], none, some "boom", none, none⟩
    ∧ Event.listenerOpened ∉ main ⟨none, ["fmt"], none, some "boom", none, none⟩
    ∧ Event.serving ∉ main ⟨none, ["fmt"], none, some "boom", none, none⟩ :=
  main_startup_failure_exits_1 ⟨none, ["fmt"], none, some "boom", none, none⟩
    rfl (by decide) "boom" rfl

/-! ## init (src/main.go:39-47) -/

/-- `os.Getenv`: returns the empty string both for an unset variable
and for a variable set to the empty string. -/
def osGetenv : Option String → String
  | none => ""
  | some v => v

/-- `init` (src/main.go:39-47): the GOMAXPROCS value after the `init`
function runs, given the `GOMAXPROCS` environment variable (`none` =
unset), the CPU count, and the runtime's current setting. -/
def init (gomaxprocs : Option String) (numCPU : Nat) (current : Nat) : Nat :=
  if osGetenv gomaxprocs = "" then
    let n := numCPU
    let n := if n < 4 then 4 else n
    n
  else current

/-- C7 counterexample: with `GOMAXPROCS` present in the environment but
set to the empty string, `init` does not leave the runtime setting
untouched: with 2 CPUs and a current setting of 8 it installs 4. -/
theorem init_env_set_empty_counterexample :
    init (some "") 2 8 = 4 ∧ init (some "") 2 8 ≠ 8 := by decide

/-- C7 amended: if `GOMAXPROCS` is unset or set to the empty string
(`os.Getenv` does not distinguish the two), the worker-pool size is set
to `max(NumCPU, 4)`; if it is set to any non-empty value the runtime
setting is left untouched. -/
theorem init_gomaxprocs_floor (env : Option String) (numCPU current : Nat) :
    (osGetenv env = "" → init env numCPU current = max numCPU 4)
    ∧ (osGetenv env ≠ "" → init env numCPU current = current) := by
  constructor
  · intro h
    simp only [init, h, if_true]
    split <;> omega
  · intro h
    simp [init, h]

/-- Witness for the amended C7: unset variable with 2 CPUs gives
`max 2 4 = 4`; variable set to `"x"` leaves the setting at 8. -/
theorem init_gomaxprocs_floor_witness :
    init none 2 8 = max 2 4 ∧ init (some "x") 2 8 = 8 :=
  ⟨(init_gomaxprocs_floor none 2 8).1 rfl,
   (init_gomaxprocs_floor (some "x") 2 8).2 (by decide)⟩

/-! ## Build tags (src/main.go:94-95) -/

/-- The `BuildTags` field installed by `main`:
`settings.BuildTags = strings.Split(*tags, ",")`. -/
def settingsBuildTags (tagsFlag : String) : List String :=
  stringsSplit tagsFlag ','

/-- C8 counterexample: at the default `-tags` value (the empty string)
the build configuration does not carry an empty tag list:
`strings.Split("", ",")` is `[""]`, a one-element list holding the
empty string. -/
theorem settingsBuildTags_default_counterexample :
    settingsBuildTags "" = [""] ∧ settingsBuildTags "" ≠ [] := by decide

/-- C8 amended: at the default `-tags` value the build configuration
carries exactly one tag, the empty string. Build-constraint tags are
non-empty tokens, and no non-empty string is a member of `[""]`, so
conditional files are filtered exactly as with an empty tag list. -/
theorem settingsBuildTags_default (t : String) (h : t ≠ "") :
    settingsBuildTags "" = [""]
    ∧ (t ∈ settingsBuildTags "" ↔ t ∈ ([] : List String)) := by
  have h1 : settingsBuildTags "" = [""] := by decide
  refine ⟨h1, ?_⟩
  rw [h1]
  simp [h]

/-- Witness for the amended C8 at the concrete tag `"linux"`. -/
theorem settingsBuildTags_default_witness :
    settingsBuildTags "" = [""]
    ∧ ("linux" ∈ settingsBuildTags "" ↔ "linux" ∈ ([] : List String)) :=
  settingsBuildTags_default "linux" (by decide)

/-! ## Query coordinator mutex discipline (src/main.go:36) -/

/-- Phase of one HTTP request's handler with respect to the shared
oracle: not yet querying, blocked in `mutex.Lock()`, or holding the
mutex with an oracle invocation in flight. -/
inductive ThreadState where
  | idle
  | waiting
  | inEngine
deriving DecidableEq

/-- Process-wide state: the global `mutex` (src/main.go:36) and the
phase of each of `n` concurrent request handlers. -/
structure ServerState (n : Nat) where
  mutexLocked : Bool
  threads : Fin n → ThreadState

/-- Modelled from the spec: the query handler that wraps the oracle
call is not under src/ (only the `mutex` declaration is); per the spec,
every engine invocation happens between an acquisition of the single
mutual-exclusion guard and its release on every exit path. A handler
begins a query (`arrive`), acquires the mutex only while the mutex is
free (`lock`, the semantics of `sync.Mutex.Lock`) entering its
engine invocation, and releases it when the invocation ends
(`unlock`). -/
inductive queryStep {n : Nat} : ServerState n → ServerState n → Prop where
  | arrive (s : ServerState n) (i : Fin n)
      (h : s.threads i = ThreadState.idle) :
      queryStep s ⟨s.mutexLocked, Function.update s.threads i ThreadState.waiting⟩
  | lock (s : ServerState n) (i : Fin n)
      (h : s.threads i = ThreadState.waiting) (hm : s.mutexLocked = false) :
      queryStep s ⟨true, Function.update s.threads i ThreadState.inEngine⟩
  | unlock (s : ServerState n) (i : Fin n)
      (h : s.threads i = ThreadState.inEngine) :
      queryStep s ⟨false, Function.update s.threads i ThreadState.idle⟩

/-- Process start: mutex free, no request in progress. -/
def startState (n : Nat) : ServerState n :=
  ⟨false, fun _ => ThreadState.idle⟩

/-- The coordinator invariant: a free mutex means no engine invocation
is in flight, and at most one handler is inside the engine. -/
def LockInv {n : Nat} (s : ServerState n) : Prop :=
  (s.mutexLocked = false → ∀ i, s.threads i ≠ ThreadState.inEngine)
  ∧ ∀ i j, s.threads i = ThreadState.inEngine →
      s.threads j = ThreadState.inEngine → i = j

theorem lockInv_start (n : Nat) : LockInv (startState n) := by
  constructor
  · intro _ i
    simp [startState]
  · intro i j hi _
    simp [startState] at hi

theorem lockInv_step {n : Nat} {s t : ServerState n} (hs : LockInv s)
    (hstep : queryStep s t) : LockInv t := by
  obtain ⟨hfree, huniq⟩ := hs
  cases hstep with
  | arrive i h =>
    constructor
    · intro hm j
      simp only at hm
      by_cases hji : j = i
      · simp [Function.update_apply, hji]
      · simp only [Function.update_apply, hji, if_false]
        exact hfree hm j
    · intro j k hj hk
      by_cases hji : j = i
      · simp [Function.update_apply, hji] at hj
      by_cases hki : k = i
      · simp [Function.update_apply, hki] at hk
      simp only [Function.update_apply, hji, hki, if_false] at hj hk
      exact huniq j k hj hk
  | lock i h hm =>
    constructor
    · intro hmf
      simp at hmf
    · intro j k hj hk
      by_cases hji : j = i
      · by_cases hki : k = i
        · rw [hji, hki]
        · simp only [Function.update_apply, hki, if_false] at hk
          exact absurd hk (hfree hm k)
      · simp only [Function.update_apply, hji, if_false] at hj
        exact absurd hj (hfree hm j)
  | unlock i h =>
    constructor
    · intro _ j
      by_cases hji : j = i
      · simp [Function.update_apply, hji]
      · simp only [Function.update_apply, hji, if_false]
        intro hj
        exact hji (huniq j i hj h)
    · intro j k hj hk
      by_cases hji : j = i
      · simp [Function.update_apply, hji] at hj
      by_cases hki : k = i
      · simp [Function.update_apply, hki] at hk
      simp only [Function.update_apply, hji, hki, if_false] at hj hk
      exact huniq j k hj hk

/-- Every state reachable from process start satisfies the coordinator
invariant. -/
theorem lockInv_reachable (n : Nat) (s : ServerState n)
    (hreach : Relation.ReflTransGen queryStep (startState n) s) :
    LockInv s := by
  induction hreach with
  | refl => exact lockInv_start n
  | tail _ hbc ih => exact lockInv_step ih hbc

/-- C2: in every state reachable from process start under the
coordinator's step relation, at most one handler is inside the engine:
any two handlers whose engine invocations are in flight at the same
instant are the same handler, so engine-invocation intervals of
distinct concurrent requests never overlap. -/
theorem queryStep_mutual_exclusion (n : Nat) (s : ServerState n)
    (hreach : Relation.ReflTransGen queryStep (startState n) s)
    (i j : Fin n) (hi : s.threads i = ThreadState.inEngine)
    (hj : s.threads j = ThreadState.inEngine) : i = j :=
  (lockInv_reachable n s hreach).2 i j hi hj

/-- Witness for C2: a concrete reachable state of two handlers in which
handler 0 arrived and locked the mutex, so its oracle call is the one
in flight. -/
theorem queryStep_mutual_exclusion_witness : (0 : Fin 2) = 0 :=
  queryStep_mutual_exclusion 2
    ⟨true, Function.update
      (Function.update (fun _ => ThreadState.idle) 0 ThreadState.waiting)
      0 ThreadState.inEngine⟩
    (Relation.ReflTransGen.tail
      (Relation.ReflTransGen.tail Relation.ReflTransGen.refl
        (queryStep.arrive (startState 2) 0 rfl))
      (queryStep.lock
        ⟨false, Function.update (fun _ => ThreadState.idle) 0 ThreadState.waiting⟩
        0 (by simp) rfl))
    0 0 (by simp) (by simp)

end Pythia
